import Mathlib

/-!
Shallow embedding of the core of the indian-festivals-api repository:
the festival scraper (app/core/scraper.py), the TTL cache
(app/core/cache.py) and the service orchestrator
(app/services/festival_service.py), together with proofs of the
specification claims about them.

Conventions of the embedding:
* HTML documents are modelled as the list of tables BeautifulSoup's
  find_all returns; each table carries the (stripped-later) text of its
  first thead th, if any, and the list of tbody rows, if a tbody exists.
* Python str.strip / str.split are implemented over the character list
  of the string.
* Wall-clock time (time.time) is modelled as an abstract Int; only
  ordering and addition of timestamps matter to the code.
* Python dicts / OrderedDicts are association lists in insertion order;
  assignment overwrites in place, new keys append at the end.
-/

namespace PanchangModel

/-! ## Python string primitives -/

/-- Whitespace as recognised by Python str.strip() / str.split(). -/
def pyIsSpace (c : Char) : Bool :=
  c = ' ' || c = '\t' || c = '\n' || c = '\r' || c = '\x0b' || c = '\x0c'

/-- Drop leading whitespace characters. -/
def dropWs : List Char → List Char
  | [] => []
  | c :: cs => if pyIsSpace c then dropWs cs else c :: cs

/-- Python str.strip(): remove leading and trailing whitespace. -/
def pyStrip (s : String) : String :=
  String.mk ((dropWs ((dropWs s.data).reverse)).reverse)

/-- Helper for pySplit: accumulate the current (reversed) token. -/
def pySplitGo : List Char → List Char → List String
  | [], cur => if cur.isEmpty then [] else [String.mk cur.reverse]
  | c :: cs, cur =>
    if pyIsSpace c then
      if cur.isEmpty then pySplitGo cs [] else String.mk cur.reverse :: pySplitGo cs []
    else pySplitGo cs (c :: cur)

/-- Python str.split() with no argument: split on whitespace runs, dropping
empty tokens. -/
def pySplit (s : String) : List String := pySplitGo s.data []

/-- Helper for pySplitColon. -/
def pySplitColonGo : List Char → List Char → List String
  | [], cur => [String.mk cur.reverse]
  | c :: cs, cur =>
    if c = ':' then String.mk cur.reverse :: pySplitColonGo cs []
    else pySplitColonGo cs (c :: cur)

/-- Python str.split(sep) for sep = single colon: keeps empty fields. -/
def pySplitColon (s : String) : List String := pySplitColonGo s.data []

/-- Python s.rstrip(single semicolon): remove all trailing semicolons. -/
def rstripSemi (s : String) : String :=
  String.mk ((s.data.reverse.dropWhile (fun c => c = ';')).reverse)

/-- Python membership test: a colon occurs in the string. -/
def containsColon (s : String) : Bool := s.data.contains ':'

/-- Truthiness of an Optional[str] in Python: non-None and non-empty. -/
def truthyS : Option String → Bool
  | none => false
  | some s => !(s = "")

/-! ## Document model

A parsed document is the list of its tables in source order.  A table
records the text of the first th of its thead (none when there is no
thead or no th) and the list of tbody tr rows (none when no tbody). -/

/-- A bold or link element inside the name cell, with the raw value of its
style attribute ("" when the attribute is absent, mirroring
tag.get with default "") and its text. -/
structure StyledTag where
  style : String
  text : String
deriving DecidableEq, Repr

/-- A td cell: its text content and the styled (b / a) elements inside it. -/
structure Cell where
  text : String
  tags : List StyledTag
deriving DecidableEq, Repr

/-- A tr row: its td cells in order. -/
structure Row where
  cells : List Cell
deriving DecidableEq, Repr

/-- A calendar table: header text (first th of thead, if resolvable) and
tbody rows (if a tbody exists). -/
structure Table where
  header : Option String
  body : Option (List Row)
deriving DecidableEq, Repr

/-- A record of the plain festival view: scraper.get_festivals. -/
structure Festival where
  date : String
  day : String
  name : String
deriving DecidableEq, Repr

/-- A record of the religion view: scraper.get_religious_festivals.
The month field is only present in the unfiltered view. -/
structure RFestival where
  date : String
  day : String
  month : Option String
  name : String
deriving DecidableEq, Repr

/-! ## Ordered-dict primitives (association lists in insertion order) -/

/-- Dict lookup: first binding of the key. -/
def odGet {α : Type} : List (String × α) → String → Option α
  | [], _ => none
  | p :: ps, k => if p.1 = k then some p.2 else odGet ps k

/-- Dict assignment: overwrite in place if the key exists, else append. -/
def odSet {α : Type} : List (String × α) → String → α → List (String × α)
  | [], k, v => [(k, v)]
  | p :: ps, k, v => if p.1 = k then (k, v) :: ps else p :: odSet ps k v

/-- In-place list append on a dict of lists (d[k].append x); no-op when the
key is absent (the scraper only appends to pre-seeded keys). -/
def odAppend {β : Type} : List (String × List β) → String → β → List (String × List β)
  | [], _, _ => []
  | p :: ps, k, x => if p.1 = k then (p.1, p.2 ++ [x]) :: ps else p :: odAppend ps k x

/-- Dict deletion (del d[k]). -/
def odDel {α : Type} : List (String × α) → String → List (String × α)
  | [], _ => []
  | p :: ps, k => if p.1 = k then ps else p :: odDel ps k

/-! ## IndianFestivalsScraper -/

/-- The MONTHS table of the scraper: month number to month name. -/
def MONTHS (m : Int) : Option String :=
  if m = 1 then some "January" else if m = 2 then some "February"
  else if m = 3 then some "March" else if m = 4 then some "April"
  else if m = 5 then some "May" else if m = 6 then some "June"
  else if m = 7 then some "July" else if m = 8 then some "August"
  else if m = 9 then some "September" else if m = 10 then some "October"
  else if m = 11 then some "November" else if m = 12 then some "December"
  else none

/-- The FESTIVAL_COLORS table: inline color code to religion category. -/
def FESTIVAL_COLORS : List (String × String) :=
  [("#a60000", "Hindu Festivals"),
   ("#4A3475", "Government Holidays"),
   ("#556A21", "Sikh Festivals"),
   ("#d42426", "Christian Holidays"),
   ("#008000", "Islamic Holidays")]

/-- FESTIVAL_COLORS.get(color). -/
def colorLookup (c : String) : Option String :=
  (FESTIVAL_COLORS.find? (fun p => p.1 = c)).map Prod.snd

/-- target_month_name = self.MONTHS.get(month) if month else None -/
def targetMonthName : Option Int → Option String
  | none => none
  | some m => if m = 0 then none else MONTHS m

/-- Month name of a table: text of the first thead th stripped, first
whitespace token; none when the header is missing or unusable (the code
paths continue past such tables). -/
def monthName (t : Table) : Option String :=
  match t.header with
  | none => none
  | some htxt =>
    let header_text := pyStrip htxt
    if header_text = "" then none
    else
      match pySplit header_text with
      | [] => none
      | w :: _ => if w = "" then none else some w

/-- Festival record extracted from one row of a month table, none when the
row is skipped (fewer than two cells, an empty trimmed date or name cell,
or fewer than two whitespace tokens in the date cell). -/
def rowFestival (r : Row) : Option Festival :=
  match r.cells with
  | c0 :: c1 :: _ =>
    let date_cell := pyStrip c0.text
    let name_cell := pyStrip c1.text
    if date_cell = "" ∨ name_cell = "" then none
    else
      match pySplit date_cell with
      | d :: dy :: _ => some ⟨d, dy, name_cell⟩
      | _ => none
  | _ => none

/-- One iteration of the get_festivals table loop: the updated accumulator
and whether the loop breaks after this table (it breaks exactly when a
month filter is active, this table's month equals the target, and the
table has a tbody so the row-processing branch is reached). -/
def tableStep (target : Option String) (t : Table)
    (acc : List (String × List Festival)) : List (String × List Festival) × Bool :=
  match monthName t with
  | none => (acc, false)
  | some mn =>
    if truthyS target = true ∧ ¬target = some mn then (acc, false)
    else
      match t.body with
      | none => (acc, false)
      | some rows =>
        let mfs := rows.filterMap rowFestival
        ((if mfs.isEmpty then acc else odSet acc mn mfs),
         truthyS target && (target == some mn))

/-- The table loop of get_festivals. -/
def gfLoop (target : Option String) : List Table → List (String × List Festival) →
    List (String × List Festival)
  | [], acc => acc
  | t :: ts, acc =>
    if (tableStep target t acc).2 then (tableStep target t acc).1
    else gfLoop target ts (tableStep target t acc).1

/-- IndianFestivalsScraper.get_festivals over an already fetched document. -/
def get_festivals (doc : List Table) (month : Option Int) :
    List (String × List Festival) :=
  gfLoop (targetMonthName month) doc []

/-! ### get_religious_festivals -/

/-- Contribution of one styled tag: parse the color out of the style
attribute exactly as the code does (skip when the style is empty or has no
colon; split on colons; take the field after the first colon; strip
whitespace then trailing semicolons), look it up in FESTIVAL_COLORS, and
when found produce the (religion, record) pair. -/
def tagRecord (monthField : Option String) (d dy : String) (tg : StyledTag) :
    Option (String × RFestival) :=
  if tg.style = "" ∨ containsColon tg.style = false then none
  else
    match pySplitColon tg.style with
    | _ :: p1 :: _ =>
      let color := rstripSemi (pyStrip p1)
      match colorLookup color with
      | none => none
      | some religion => some (religion, ⟨d, dy, monthField, pyStrip tg.text⟩)
    | _ => none

/-- Row processing of get_religious_festivals: check the date cell, build
the shared date info (with the month name exactly when no target month is
active), then fold over the styled tags appending each classified record
to its religion's list. -/
def rowFoldRel (target : Option String) (mn : String)
    (acc : List (String × List RFestival)) (row : Row) :
    List (String × List RFestival) :=
  match row.cells with
  | c0 :: c1 :: _ =>
    let date_cell := pyStrip c0.text
    if date_cell = "" then acc
    else
      match pySplit date_cell with
      | d :: dy :: _ =>
        let monthField := if truthyS target then none else some mn
        c1.tags.foldl (fun a tg =>
          match tagRecord monthField d dy tg with
          | none => a
          | some (rel, f) => odAppend a rel f) acc
      | _ => acc
  | _ => acc

/-- One iteration of the get_religious_festivals table loop; the skip and
break structure is identical to tableStep. -/
def relTableStep (target : Option String) (t : Table)
    (acc : List (String × List RFestival)) : List (String × List RFestival) × Bool :=
  match monthName t with
  | none => (acc, false)
  | some mn =>
    if truthyS target = true ∧ ¬target = some mn then (acc, false)
    else
      match t.body with
      | none => (acc, false)
      | some rows =>
        (rows.foldl (rowFoldRel target mn) acc,
         truthyS target && (target == some mn))

/-- The table loop of get_religious_festivals. -/
def grfLoop (target : Option String) : List Table → List (String × List RFestival) →
    List (String × List RFestival)
  | [], acc => acc
  | t :: ts, acc =>
    if (relTableStep target t acc).2 then (relTableStep target t acc).1
    else grfLoop target ts (relTableStep target t acc).1

/-- The pre-seeded category map: every religion of FESTIVAL_COLORS bound to
an empty list, in values() order. -/
def initialCategories : List (String × List RFestival) :=
  FESTIVAL_COLORS.map (fun p => (p.2, []))

/-- IndianFestivalsScraper.get_religious_festivals over a fetched document. -/
def get_religious_festivals (doc : List Table) (month : Option Int) :
    List (String × List RFestival) :=
  grfLoop (targetMonthName month) doc initialCategories

/-- Whether the table loops break after visiting this table (shared control
flow of both extraction functions). -/
def tableBreaks (target : Option String) (t : Table) : Bool :=
  match monthName t with
  | none => false
  | some mn =>
    if truthyS target = true ∧ ¬target = some mn then false
    else
      match t.body with
      | none => false
      | some _ => truthyS target && (target == some mn)

/-- Number of tables the extraction loops visit (loop iterations entered)
before stopping: everything up to and including the first breaking table. -/
def scanCount (target : Option String) : List Table → Nat
  | [] => 0
  | t :: ts => 1 + (if tableBreaks target t then 0 else scanCount target ts)

/-! ## CacheManager

The cache key is md5(json.dumps(kwargs, sort_keys=True)).  The md5 step
is a fixed-width injective-in-practice hash of the canonical
serialization; the embedding models the fingerprint as the canonical
serialization itself (the hash is applied to nothing else and collisions
of md5 are outside the scope of a functional model).  Timestamps are
modelled as Int. -/

/-- JSON values occurring in the cache kwargs: strings, ints, null. -/
inductive Jv where
  | s (v : String)
  | n (v : Int)
  | nullv
deriving DecidableEq, Repr

/-- Decimal rendering of an int as json.dumps produces it. -/
def jsonInt : Int → String
  | Int.ofNat m => Nat.repr m
  | Int.negSucc m => "-" ++ Nat.repr (m + 1)

/-- json.dumps rendering of one value. -/
def dumpJv : Jv → String
  | Jv.s v => "\"" ++ v ++ "\""
  | Jv.n v => jsonInt v
  | Jv.nullv => "null"

/-- Lexicographic comparison of key strings by code point (Python sorted). -/
def charListLe : List Char → List Char → Bool
  | [], _ => true
  | _ :: _, [] => false
  | a :: as, b :: bs =>
    if a.val < b.val then true
    else if b.val < a.val then false
    else charListLe as bs

/-- Key order used by sort_keys=True. -/
def keyLe (a b : String) : Bool := charListLe a.data b.data

/-- Insertion step of sorting the kwargs by key. -/
def insertKw (p : String × Jv) : List (String × Jv) → List (String × Jv)
  | [] => [p]
  | q :: qs => if keyLe p.1 q.1 then p :: q :: qs else q :: insertKw p qs

/-- Sort the kwargs by key (sort_keys=True). -/
def sortKw (l : List (String × Jv)) : List (String × Jv) :=
  l.foldr insertKw []

/-- json.dumps body of an object: key-value pairs joined by comma-space. -/
def dumpPairs : List (String × Jv) → String
  | [] => ""
  | [p] => "\"" ++ p.1 ++ "\": " ++ dumpJv p.2
  | p :: ps => "\"" ++ p.1 ++ "\": " ++ dumpJv p.2 ++ ", " ++ dumpPairs ps

/-- CacheManager._generate_key: canonical serialization of the kwargs with
keys sorted (the md5 of this string is modelled by the string itself). -/
def generate_key (kwargs : List (String × Jv)) : String :=
  "\x7b" ++ dumpPairs (sortKw kwargs) ++ "\x7d"

/-- JSON value of the optional month parameter. -/
def jvMonth : Option Int → Jv
  | none => Jv.nullv
  | some m => Jv.n m

/-- CacheManager.get: derive the key; on a present, unexpired entry return
its value; on a present, expired entry delete it and report a miss; else
report a miss.  Returns the result together with the updated cache. -/
def cache_get {α : Type} (st : List (String × α × Int)) (now : Int)
    (kwargs : List (String × Jv)) : Option α × List (String × α × Int) :=
  let key := generate_key kwargs
  match odGet st key with
  | some ve => if now < ve.2 then (some ve.1, st) else (none, odDel st key)
  | none => (none, st)

/-- Python (ttl or default): None and 0 fall back to the default. -/
def pyOrInt : Option Int → Int → Int
  | none, d => d
  | some t, d => if t = 0 then d else t

/-- CacheManager.set: store (value, now + effective ttl) under the key. -/
def cache_set {α : Type} (default_ttl : Int) (st : List (String × α × Int))
    (now : Int) (value : α) (ttl : Option Int) (kwargs : List (String × Jv)) :
    List (String × α × Int) :=
  odSet st (generate_key kwargs) (value, now + pyOrInt ttl default_ttl)

/-! ## FestivalService -/

/-- A fetch failure (network error / timeout / non-2xx), re-raised as-is. -/
structure FetchErr where
  msg : String
deriving DecidableEq, Repr

/-- Payloads stored in the shared cache (the Python cache stores Any). -/
inductive CacheVal where
  | fest (v : List (String × List Festival))
  | rel (v : List (String × List RFestival))
deriving DecidableEq, Repr

/-- kwargs of the plain-festivals cache calls, in call-site order. -/
def festivalsKwargs (year : Int) (month : Option Int) : List (String × Jv) :=
  [("type", Jv.s "festivals"), ("year", Jv.n year), ("month", jvMonth month)]

/-- kwargs of the religious-festivals cache calls, in call-site order. -/
def religiousKwargs (year : Int) (month : Option Int) : List (String × Jv) :=
  [("type", Jv.s "religious"), ("year", Jv.n year), ("month", jvMonth month)]

/-- FestivalService.get_festivals.  The fetch-and-parse step is the world
function (one blocking fetch per year); on a cache hit the cached value is
returned unchanged, on a miss the scraper runs, its result is cached with
the configured ttl and returned, and a fetch failure is re-raised with no
cache write. -/
def service_get_festivals (world : Int → Except FetchErr (List Table))
    (cacheTtl defaultTtl : Int) (st : List (String × CacheVal × Int))
    (now : Int) (year : Int) (month : Option Int) :
    Except FetchErr CacheVal × List (String × CacheVal × Int) :=
  match cache_get st now (festivalsKwargs year month) with
  | (some v, st1) => (Except.ok v, st1)
  | (none, st1) =>
    match world year with
    | Except.error e => (Except.error e, st1)
    | Except.ok doc =>
      let res := CacheVal.fest (get_festivals doc month)
      (Except.ok res,
       cache_set defaultTtl st1 now res (some cacheTtl) (festivalsKwargs year month))

/-- FestivalService.get_religious_festivals, same shape. -/
def service_get_religious_festivals (world : Int → Except FetchErr (List Table))
    (cacheTtl defaultTtl : Int) (st : List (String × CacheVal × Int))
    (now : Int) (year : Int) (month : Option Int) :
    Except FetchErr CacheVal × List (String × CacheVal × Int) :=
  match cache_get st now (religiousKwargs year month) with
  | (some v, st1) => (Except.ok v, st1)
  | (none, st1) =>
    match world year with
    | Except.error e => (Except.error e, st1)
    | Except.ok doc =>
      let res := CacheVal.rel (get_religious_festivals doc month)
      (Except.ok res,
       cache_set defaultTtl st1 now res (some cacheTtl) (religiousKwargs year month))

/-! ## Specification-side definitions used by the claims -/

/-- A row the plain extraction skips: fewer than two cells, an empty
trimmed date or name cell, or a date cell with fewer than two whitespace
tokens. -/
def rowMalformed (r : Row) : Prop :=
  match r.cells with
  | c0 :: c1 :: _ =>
    pyStrip c0.text = "" ∨ pyStrip c1.text = "" ∨
      (pySplit (pyStrip c0.text)).length < 2
  | _ => True

/-- Declarative description of the (religion, record) pairs one row emits
in the religion view: when the row has two cells and a date cell with at
least two tokens, each styled tag contributes via tagRecord, in order. -/
def rowEmitted (monthField : Option String) (row : Row) :
    List (String × RFestival) :=
  match row.cells with
  | c0 :: c1 :: _ =>
    let date_cell := pyStrip c0.text
    if date_cell = "" then []
    else
      match pySplit date_cell with
      | d :: dy :: _ => c1.tags.filterMap (tagRecord monthField d dy)
      | _ => []
  | _ => []

/-- The records of rowEmitted landing in one category. -/
def rowEmittedFor (c : String) (monthField : Option String) (row : Row) :
    List RFestival :=
  (rowEmitted monthField row).filterMap
    (fun p => if p.1 = c then some p.2 else none)

/-- Decimal digit string of a natural number (reference definition used to
reason about Nat.repr, which computes the same digits with fuel). -/
def specDigits (n : Nat) : List Char :=
  if n < 10 then [Nat.digitChar n]
  else specDigits (n / 10) ++ [Nat.digitChar (n % 10)]
decreasing_by exact Nat.div_lt_self (by omega) (by omega)

/-- Value of a digit string, for the round-trip proof. -/
def digitsVal (l : List Char) : Nat :=
  l.foldl (fun a c => 10 * a + (c.toNat - 48)) 0

/-! ## Concrete documents used in counterexamples and witnesses -/

/-- A document with two tables both headed "March": legal input on which
the filtered and unfiltered views disagree. -/
def docTwoMarch : List Table :=
  [⟨some "March 2025", some [⟨[⟨"1 Saturday", []⟩, ⟨"Holi", []⟩]⟩]⟩,
   ⟨some "March 2025", some [⟨[⟨"2 Sunday", []⟩, ⟨"X", []⟩]⟩]⟩]

/-- A document with a single March table. -/
def docOneMarch : List Table :=
  [⟨some "March 2025", some [⟨[⟨"1 Saturday", []⟩, ⟨"Holi", []⟩]⟩]⟩]

/-- A January row whose name cell has one Hindu-colored styled tag. -/
def tagRowEx : Row :=
  ⟨[⟨"1 Wednesday", []⟩, ⟨"New Year", [⟨"color: #a60000;", "New Year"⟩]⟩]⟩

/-- A March table with no tbody followed by an April table: the March
filter does not break on the first table. -/
def docMarchNoBody : List Table :=
  [⟨some "March 2025", none⟩, ⟨some "April 2025", some []⟩]

/-- January / March / April tables, March having a body. -/
def tableJan : Table := ⟨some "January 2025", some [tagRowEx]⟩

def tableMar : Table := ⟨some "March 2025", some [⟨[⟨"1 Saturday", []⟩, ⟨"Holi", []⟩]⟩]⟩

def tableApr : Table := ⟨some "April 2025", some []⟩

/-! ## Ordered-dict lemmas -/

theorem odGet_odSet {α : Type} (m : List (String × α)) (k k' : String) (v : α) :
    odGet (odSet m k v) k' = if k' = k then some v else odGet m k' := by
  induction m with
  | nil =>
    by_cases h : k' = k
    · subst h; simp [odGet, odSet]
    · simp [odGet, odSet, h, Ne.symm h]
  | cons p ps ih =>
    by_cases hp : p.1 = k
    · by_cases h : k' = k
      · subst h; simp [odGet, odSet, hp]
      · simp [odGet, odSet, hp, h, Ne.symm h]
    · by_cases hk : p.1 = k'
      · have : ¬k' = k := fun he => hp (hk.trans he)
        simp [odGet, odSet, hp, hk, this]
      · simp [odGet, odSet, hp, hk, ih]

theorem odGet_odAppend {β : Type} (m : List (String × List β)) (k k' : String) (x : β) :
    odGet (odAppend m k x) k' =
      if k' = k then (odGet m k).map (fun l => l ++ [x]) else odGet m k' := by
  induction m with
  | nil =>
    by_cases h : k' = k <;> simp [odGet, odAppend, h]
  | cons p ps ih =>
    by_cases hp : p.1 = k
    · by_cases h : k' = k
      · subst h; simp [odGet, odAppend, hp]
      · have : ¬p.1 = k' := fun he => h (he.symm.trans hp)
        simp [odGet, odAppend, hp, h, this, show ¬k = k' from fun he => h he.symm]
    · by_cases hk : p.1 = k'
      · have : ¬k' = k := fun he => hp (hk.trans he)
        simp [odGet, odAppend, hp, hk, this]
      · simp [odGet, odAppend, hp, hk, ih]

theorem odAppend_keys {β : Type} (m : List (String × List β)) (k : String) (x : β) :
    (odAppend m k x).map Prod.fst = m.map Prod.fst := by
  induction m with
  | nil => simp [odAppend]
  | cons p ps ih =>
    by_cases hp : p.1 = k <;> simp [odAppend, hp, ih]

theorem odGet_eq_none_of_not_mem {α : Type} (m : List (String × α)) (k : String)
    (h : k ∉ m.map Prod.fst) : odGet m k = none := by
  induction m with
  | nil => rfl
  | cons p ps ih =>
    simp only [List.map_cons, List.mem_cons] at h
    push_neg at h
    simp [odGet, show ¬p.1 = k from fun he => h.1 he.symm, ih h.2]

theorem odGet_odDel_self {α : Type} (m : List (String × α)) (k : String)
    (hnd : (m.map Prod.fst).Nodup) : odGet (odDel m k) k = none := by
  induction m with
  | nil => rfl
  | cons p ps ih =>
    simp only [List.map_cons, List.nodup_cons] at hnd
    by_cases hp : p.1 = k
    · simp only [odDel, if_pos hp]
      exact odGet_eq_none_of_not_mem ps k (hp ▸ hnd.1)
    · simp [odDel, odGet, hp, ih hnd.2]

theorem odGet_odDel_other {α : Type} (m : List (String × α)) (k k' : String)
    (h : k' ≠ k) : odGet (odDel m k) k' = odGet m k' := by
  induction m with
  | nil => rfl
  | cons p ps ih =>
    by_cases hp : p.1 = k
    · have : ¬p.1 = k' := fun he => h (he.symm.trans hp)
      simp [odDel, odGet, hp, this, show ¬k = k' from fun he => h he.symm]
    · simp [odDel, odGet, hp, ih]

/-! ## tableStep case lemmas -/

theorem tableStep_none {target : Option String} {t : Table}
    (h : monthName t = none) (acc : List (String × List Festival)) :
    tableStep target t acc = (acc, false) := by
  simp [tableStep, h]

theorem tableStep_skip {target : Option String} {t : Table} {mn : String}
    (h : monthName t = some mn) (ht : truthyS target = true) (hne : target ≠ some mn)
    (acc : List (String × List Festival)) :
    tableStep target t acc = (acc, false) := by
  simp [tableStep, h, ht, hne]

theorem tableStep_nobody {target : Option String} {t : Table} {mn : String}
    (h : monthName t = some mn) (hb : t.body = none)
    (acc : List (String × List Festival)) :
    tableStep target t acc = (acc, false) := by
  by_cases hc : truthyS target = true ∧ ¬target = some mn <;>
    simp [tableStep, h, hb, hc]

theorem tableStep_rows {target : Option String} {t : Table} {mn : String}
    {rows : List Row} (h : monthName t = some mn) (hb : t.body = some rows)
    (hpass : ¬(truthyS target = true ∧ ¬target = some mn))
    (acc : List (String × List Festival)) :
    tableStep target t acc =
      ((if (rows.filterMap rowFestival).isEmpty then acc
        else odSet acc mn (rows.filterMap rowFestival)),
       truthyS target && (target == some mn)) := by
  simp [tableStep, h, hb, hpass]

theorem gfLoop_cons (target : Option String) (t : Table) (ts : List Table)
    (acc : List (String × List Festival)) :
    gfLoop target (t :: ts) acc =
      if (tableStep target t acc).2 then (tableStep target t acc).1
      else gfLoop target ts (tableStep target t acc).1 := rfl

/-! ## C1: month-filtered extraction agrees with the unfiltered one -/

theorem gf_none_noMatch (tname : String) (ts : List Table) :
    ∀ acc, (∀ t ∈ ts, monthName t ≠ some tname) →
    odGet (gfLoop none ts acc) tname = odGet acc tname := by
  induction ts with
  | nil => intro acc _; rfl
  | cons t ts ih =>
    intro acc h
    have hts : ∀ t' ∈ ts, monthName t' ≠ some tname :=
      fun t' ht' => h t' (List.mem_cons_of_mem _ ht')
    have hhd := h t (List.mem_cons_self _ _)
    rw [gfLoop_cons]
    cases hmn : monthName t with
    | none => rw [tableStep_none hmn]; simpa using ih acc hts
    | some mn =>
      have hmne : ¬tname = mn := fun he => hhd (by rw [hmn, he])
      cases hb : t.body with
      | none => rw [tableStep_nobody hmn hb]; simpa using ih acc hts
      | some rows =>
        rw [tableStep_rows hmn hb (by simp [truthyS])]
        simp only [truthyS, Bool.false_and, Bool.false_eq_true, if_false]
        rw [ih _ hts]
        by_cases hmf : (rows.filterMap rowFestival).isEmpty
        · simp [hmf]
        · simp [hmf, odGet_odSet, hmne]

theorem gf_some_noMatch (tname : String) (hne : tname ≠ "") (ts : List Table) :
    ∀ acc, (∀ t ∈ ts, monthName t ≠ some tname) →
    gfLoop (some tname) ts acc = acc := by
  induction ts with
  | nil => intro acc _; rfl
  | cons t ts ih =>
    intro acc h
    have hts : ∀ t' ∈ ts, monthName t' ≠ some tname :=
      fun t' ht' => h t' (List.mem_cons_of_mem _ ht')
    have hhd := h t (List.mem_cons_self _ _)
    rw [gfLoop_cons]
    cases hmn : monthName t with
    | none => rw [tableStep_none hmn]; simpa using ih acc hts
    | some mn =>
      have hnt : (some tname : Option String) ≠ some mn := by
        intro he
        exact hhd (by rw [hmn, Option.some.inj he])
      rw [tableStep_skip hmn (by simp [truthyS, hne]) hnt]
      simpa using ih acc hts

theorem gf_agree (tname : String) (hne : tname ≠ "") (doc : List Table) :
    ∀ acc1 acc2, doc.countP (fun t => monthName t == some tname) ≤ 1 →
    odGet acc1 tname = odGet acc2 tname →
    odGet (gfLoop none doc acc1) tname =
      odGet (gfLoop (some tname) doc acc2) tname := by
  induction doc with
  | nil => intro acc1 acc2 _ hacc; exact hacc
  | cons t ts ih =>
    intro acc1 acc2 hcount hacc
    rw [gfLoop_cons, gfLoop_cons]
    rw [List.countP_cons] at hcount
    cases hmn : monthName t with
    | none =>
      rw [tableStep_none hmn, tableStep_none hmn]
      simp only [Bool.false_eq_true, if_false]
      exact ih acc1 acc2 (by omega) hacc
    | some mn =>
      by_cases hmneq : mn = tname
      · subst hmneq
        have hts0 : ts.countP (fun t' => monthName t' == some mn) = 0 := by
          simp only [hmn, beq_self_eq_true, if_true] at hcount; omega
        have hnomatch : ∀ t' ∈ ts, monthName t' ≠ some mn := by
          intro t' ht' he
          have := List.countP_eq_zero.mp hts0 t' ht'
          simp [he] at this
        cases hb : t.body with
        | none =>
          rw [tableStep_nobody hmn hb, tableStep_nobody hmn hb]
          simp only [Bool.false_eq_true, if_false]
          rw [gf_some_noMatch mn hne ts acc2 hnomatch,
            gf_none_noMatch mn ts acc1 hnomatch]
          exact hacc
        | some rows =>
          rw [tableStep_rows hmn hb (by simp [truthyS]),
            tableStep_rows hmn hb (by simp)]
          have hLfalse : (truthyS (none : Option String) &&
              ((none : Option String) == some mn)) = false := by simp [truthyS]
          have hRtrue : (truthyS (some mn) &&
              ((some mn : Option String) == some mn)) = true := by
            simp [truthyS, hne]
          simp only [hLfalse, hRtrue, Bool.false_eq_true, if_false, if_true]
          rw [gf_none_noMatch mn ts _ hnomatch]
          by_cases hmf : (rows.filterMap rowFestival).isEmpty
          · simp [hmf, hacc]
          · simp [hmf, odGet_odSet, hacc]
      · have hcount' : ts.countP (fun t' => monthName t' == some tname) ≤ 1 := by omega
        have hnt : (some tname : Option String) ≠ some mn := by
          intro he
          exact hmneq (Option.some.inj he).symm
        rw [tableStep_skip hmn (by simp [truthyS, hne]) hnt]
        simp only [Bool.false_eq_true, if_false]
        cases hb : t.body with
        | none =>
          rw [tableStep_nobody hmn hb]
          simp only [Bool.false_eq_true, if_false]
          exact ih _ _ hcount' hacc
        | some rows =>
          rw [tableStep_rows hmn hb (by simp [truthyS])]
          simp only [truthyS, Bool.false_and, Bool.false_eq_true, if_false]
          apply ih _ _ hcount'
          by_cases hmf : (rows.filterMap rowFestival).isEmpty
          · simp [hmf, hacc]
          · simp [hmf, odGet_odSet, show ¬tname = mn from fun he => hmneq he.symm,
              hacc]

theorem MONTHS_eq_none (m : Int) (h : m < 1 ∨ 12 < m) : MONTHS m = none := by
  have hm1 : ¬m = 1 := by omega
  have hm2 : ¬m = 2 := by omega
  have hm3 : ¬m = 3 := by omega
  have hm4 : ¬m = 4 := by omega
  have hm5 : ¬m = 5 := by omega
  have hm6 : ¬m = 6 := by omega
  have hm7 : ¬m = 7 := by omega
  have hm8 : ¬m = 8 := by omega
  have hm9 : ¬m = 9 := by omega
  have hm10 : ¬m = 10 := by omega
  have hm11 : ¬m = 11 := by omega
  have hm12 : ¬m = 12 := by omega
  simp only [MONTHS, hm1, hm2, hm3, hm4, hm5, hm6, hm7, hm8, hm9, hm10, hm11,
    hm12, if_false]

theorem MONTHS_shape (m : Int) (s : String) (h : MONTHS m = some s) :
    m ≠ 0 ∧ s ≠ "" := by
  have h1 : 1 ≤ m := by
    by_contra hc
    rw [MONTHS_eq_none m (by omega)] at h
    exact Option.noConfusion h
  have h2 : m ≤ 12 := by
    by_contra hc
    rw [MONTHS_eq_none m (by omega)] at h
    exact Option.noConfusion h
  interval_cases m <;> (injection h with hh; subst hh; exact ⟨by decide, by decide⟩)

/-- C1 (amended): for every parsed document containing at most one table
whose header resolves to the requested month's name, and every valid
(year, month) pair, the record list the unfiltered call assigns to that
month's name equals the record list the month-filtered call assigns to it,
whenever both result mappings contain that month. -/
theorem claim_C1 (doc : List Table) (m : Int) (tname : String)
    (hm : MONTHS m = some tname)
    (huniq : doc.countP (fun t => monthName t == some tname) ≤ 1)
    (l1 l2 : List Festival)
    (h1 : odGet (get_festivals doc none) tname = some l1)
    (h2 : odGet (get_festivals doc (some m)) tname = some l2) :
    l1 = l2 := by
  obtain ⟨hm0, hne⟩ := MONTHS_shape m tname hm
  have htm : targetMonthName (some m) = some tname := by
    simp [targetMonthName, hm0, hm]
  unfold get_festivals at h1 h2
  rw [htm] at h2
  have hag := gf_agree tname hne doc [] [] huniq rfl
  rw [show targetMonthName none = none from rfl] at h1
  rw [h1, h2] at hag
  exact Option.some.inj hag

/-- C1 counterexample: on a document with two tables both headed "March"
(with different bodies), the unfiltered call maps "March" to the second
table's records while the filtered call maps it to the first table's
records, so the two mappings both contain "March" but disagree. -/
theorem claim_C1_counterexample :
    (odGet (get_festivals docTwoMarch none) "March").isSome = true ∧
    (odGet (get_festivals docTwoMarch (some 3)) "March").isSome = true ∧
    odGet (get_festivals docTwoMarch none) "March" ≠
      odGet (get_festivals docTwoMarch (some 3)) "March" := by decide

/-- Witness for claim_C1 at a concrete single-March document. -/
theorem claim_C1_witness :
    ([Festival.mk "1" "Saturday" "Holi"] : List Festival) =
      [Festival.mk "1" "Saturday" "Holi"] :=
  claim_C1 docOneMarch 3 "March" (by decide) (by decide)
    [Festival.mk "1" "Saturday" "Holi"] [Festival.mk "1" "Saturday" "Holi"]
    (by decide) (by decide)

/-- C10: for every document and every integer month outside 1..12, both
extraction views behave exactly as if no month were supplied: the
month-number lookup yields no target name, so the full unfiltered year
result (all months scanned, religion records carrying their month field)
is returned. -/
theorem claim_C10 (doc : List Table) (m : Int) (h : m < 1 ∨ 12 < m) :
    get_festivals doc (some m) = get_festivals doc none ∧
    get_religious_festivals doc (some m) = get_religious_festivals doc none := by
  have htm : targetMonthName (some m) = none := by
    by_cases h0 : m = 0
    · simp [targetMonthName, h0]
    · simp [targetMonthName, h0, MONTHS_eq_none m h]
  unfold get_festivals get_religious_festivals
  rw [htm]
  exact ⟨rfl, rfl⟩

/-- Witness for claim_C10 at month = 13 on a concrete document. -/
theorem claim_C10_witness :
    get_festivals docOneMarch (some 13) = get_festivals docOneMarch none ∧
    get_religious_festivals docOneMarch (some 13) =
      get_religious_festivals docOneMarch none :=
  claim_C10 docOneMarch 13 (Or.inr (by decide))

/-! ## C7: early exit on a month filter -/

theorem grfLoop_cons (target : Option String) (t : Table) (ts : List Table)
    (acc : List (String × List RFestival)) :
    grfLoop target (t :: ts) acc =
      if (relTableStep target t acc).2 then (relTableStep target t acc).1
      else grfLoop target ts (relTableStep target t acc).1 := rfl

theorem tableStep_snd (target : Option String) (t : Table)
    (acc : List (String × List Festival)) :
    (tableStep target t acc).2 = tableBreaks target t := by
  unfold tableStep tableBreaks
  cases hmn : monthName t
  · rfl
  · dsimp only
    split_ifs with hc
    · rfl
    · cases hb : t.body <;> rfl

theorem relTableStep_snd (target : Option String) (t : Table)
    (acc : List (String × List RFestival)) :
    (relTableStep target t acc).2 = tableBreaks target t := by
  unfold relTableStep tableBreaks
  cases hmn : monthName t
  · rfl
  · dsimp only
    split_ifs with hc
    · rfl
    · cases hb : t.body <;> rfl

theorem tableBreaks_of (tname : String) (hne : tname ≠ "") (t : Table)
    (hmn : monthName t = some tname) (hb : t.body.isSome = true) :
    tableBreaks (some tname) t = true := by
  unfold tableBreaks
  rw [hmn]
  dsimp only
  rw [if_neg (by simp)]
  cases hbo : t.body
  · rw [hbo] at hb; simp at hb
  · simp [truthyS, hne]

theorem tableBreaks_not (tname : String) (t : Table)
    (h : ¬(monthName t = some tname ∧ t.body.isSome = true)) :
    tableBreaks (some tname) t = false := by
  unfold tableBreaks
  cases hmn : monthName t with
  | none => rfl
  | some mn =>
    dsimp only
    by_cases hmneq : mn = tname
    · subst hmneq
      have hbo : t.body = none := by
        cases hbo : t.body
        · rfl
        · exact absurd ⟨hmn, by simp [hbo]⟩ h
      rw [if_neg (by simp), hbo]
    · split_ifs with hc
      · rfl
      · cases hbo : t.body
        · rfl
        · simp only [not_and] at hc
          by_cases htr : truthyS (some tname) = true
          · exact absurd (Option.some.inj (not_not.mp (hc htr))).symm hmneq
          · have hf : truthyS (some tname) = false := by
              revert htr; cases truthyS (some tname) <;> simp
            simp [hf]

theorem scanCount_cons (target : Option String) (p : Table) (ts : List Table) :
    scanCount target (p :: ts) =
      1 + (if tableBreaks target p then 0 else scanCount target ts) := rfl

theorem scanCount_break (target : Option String) (t : Table) (post : List Table) :
    ∀ pre : List Table, (∀ p ∈ pre, tableBreaks target p = false) →
    tableBreaks target t = true →
    scanCount target (pre ++ t :: post) = pre.length + 1 := by
  intro pre
  induction pre with
  | nil =>
    intro _ hbt
    rw [List.nil_append, scanCount_cons, hbt]
    simp
  | cons p pre ih =>
    intro hpre hbt
    have hp : tableBreaks target p = false := hpre p (List.mem_cons_self _ _)
    have hrest : ∀ q ∈ pre, tableBreaks target q = false :=
      fun q hq => hpre q (List.mem_cons_of_mem _ hq)
    rw [List.cons_append, scanCount_cons, hp]
    simp only [Bool.false_eq_true, if_false]
    rw [ih hrest hbt]
    simp [List.length_cons]
    omega

theorem gf_break_early (target : Option String) (t : Table) (post : List Table)
    (hbt : tableBreaks target t = true) :
    ∀ (pre : List Table) (acc : List (String × List Festival)),
    (∀ p ∈ pre, tableBreaks target p = false) →
    gfLoop target (pre ++ t :: post) acc = gfLoop target (pre ++ [t]) acc := by
  intro pre
  induction pre with
  | nil =>
    intro acc _
    simp only [List.nil_append]
    rw [gfLoop_cons, gfLoop_cons, tableStep_snd, hbt]
    simp
  | cons p pre ih =>
    intro acc hpre
    have hp : tableBreaks target p = false := hpre p (List.mem_cons_self _ _)
    have hrest : ∀ q ∈ pre, tableBreaks target q = false :=
      fun q hq => hpre q (List.mem_cons_of_mem _ hq)
    simp only [List.cons_append]
    rw [gfLoop_cons, gfLoop_cons, tableStep_snd, hp]
    simp only [Bool.false_eq_true, if_false]
    exact ih _ hrest

theorem grf_break_early (target : Option String) (t : Table) (post : List Table)
    (hbt : tableBreaks target t = true) :
    ∀ (pre : List Table) (acc : List (String × List RFestival)),
    (∀ p ∈ pre, tableBreaks target p = false) →
    grfLoop target (pre ++ t :: post) acc = grfLoop target (pre ++ [t]) acc := by
  intro pre
  induction pre with
  | nil =>
    intro acc _
    simp only [List.nil_append]
    rw [grfLoop_cons, grfLoop_cons, relTableStep_snd, hbt]
    simp
  | cons p pre ih =>
    intro acc hpre
    have hp : tableBreaks target p = false := hpre p (List.mem_cons_self _ _)
    have hrest : ∀ q ∈ pre, tableBreaks target q = false :=
      fun q hq => hpre q (List.mem_cons_of_mem _ hq)
    simp only [List.cons_append]
    rw [grfLoop_cons, grfLoop_cons, relTableStep_snd, hp]
    simp only [Bool.false_eq_true, if_false]
    exact ih _ hrest

/-- C7 (amended): with a valid month filter, both extraction loops stop at
the first table that resolves to the target month's name and has a table
body: exactly the tables up to and including it are visited, and the
result is unchanged if every later table is dropped.  (A header-matching
table without a tbody is passed over without stopping the scan.) -/
theorem claim_C7 (m : Int) (tname : String) (hm : MONTHS m = some tname)
    (pre post : List Table) (t : Table)
    (hmatch : monthName t = some tname) (hbody : t.body.isSome = true)
    (hpre : ∀ t' ∈ pre, ¬(monthName t' = some tname ∧ t'.body.isSome = true)) :
    scanCount (targetMonthName (some m)) (pre ++ t :: post) = pre.length + 1 ∧
    (∀ acc, gfLoop (targetMonthName (some m)) (pre ++ t :: post) acc =
      gfLoop (targetMonthName (some m)) (pre ++ [t]) acc) ∧
    (∀ acc, grfLoop (targetMonthName (some m)) (pre ++ t :: post) acc =
      grfLoop (targetMonthName (some m)) (pre ++ [t]) acc) := by
  obtain ⟨hm0, hne⟩ := MONTHS_shape m tname hm
  have htm : targetMonthName (some m) = some tname := by
    simp [targetMonthName, hm0, hm]
  rw [htm]
  have hbt : tableBreaks (some tname) t = true := tableBreaks_of tname hne t hmatch hbody
  have hpre' : ∀ p ∈ pre, tableBreaks (some tname) p = false :=
    fun p hp => tableBreaks_not tname p (hpre p hp)
  exact ⟨scanCount_break _ t post pre hpre' hbt,
    fun acc => gf_break_early _ t post hbt pre acc hpre',
    fun acc => grf_break_early _ t post hbt pre acc hpre'⟩

/-- C7 counterexample: with a March filter, a document whose first table is
headed "March" but has no tbody is scanned past the matching table: two
tables are visited although the first one already matches the target. -/
theorem claim_C7_counterexample :
    targetMonthName (some 3) = some "March" ∧
    monthName ⟨some "March 2025", none⟩ = some "March" ∧
    scanCount (targetMonthName (some 3)) docMarchNoBody = 2 := by decide

/-- Witness for claim_C7: January, then March (with body), then April;
filtering on March visits exactly two tables and drops the April table. -/
theorem claim_C7_witness :
    scanCount (targetMonthName (some 3)) ([tableJan] ++ tableMar :: [tableApr]) = 2 ∧
    gfLoop (targetMonthName (some 3)) ([tableJan] ++ tableMar :: [tableApr]) [] =
      gfLoop (targetMonthName (some 3)) ([tableJan] ++ [tableMar]) [] ∧
    grfLoop (targetMonthName (some 3)) ([tableJan] ++ tableMar :: [tableApr])
        initialCategories =
      grfLoop (targetMonthName (some 3)) ([tableJan] ++ [tableMar])
        initialCategories :=
  ⟨(claim_C7 3 "March" (by decide) [tableJan] [tableApr] tableMar (by decide)
      (by decide) (by decide)).1,
   (claim_C7 3 "March" (by decide) [tableJan] [tableApr] tableMar (by decide)
      (by decide) (by decide)).2.1 [],
   (claim_C7 3 "March" (by decide) [tableJan] [tableApr] tableMar (by decide)
      (by decide) (by decide)).2.2 initialCategories⟩

/-! ## C8: the religion view always carries all five categories -/

theorem tagFoldRel_keys (mf : Option String) (d dy : String) (tags : List StyledTag) :
    ∀ acc : List (String × List RFestival),
    (tags.foldl (fun a tg =>
      match tagRecord mf d dy tg with
      | none => a
      | some (rel, f) => odAppend a rel f) acc).map Prod.fst = acc.map Prod.fst := by
  induction tags with
  | nil => intro acc; rfl
  | cons tg tags ih =>
    intro acc
    rcases htr : tagRecord mf d dy tg with _ | ⟨rel, f⟩
    · simp only [List.foldl_cons, htr]
      exact ih acc
    · simp only [List.foldl_cons, htr]
      rw [ih (odAppend acc rel f), odAppend_keys]

theorem rowFoldRel_keys (target : Option String) (mn : String)
    (acc : List (String × List RFestival)) (row : Row) :
    (rowFoldRel target mn acc row).map Prod.fst = acc.map Prod.fst := by
  unfold rowFoldRel
  rcases hc : row.cells with _ | ⟨c0, _ | ⟨c1, rest⟩⟩
  · rfl
  · rfl
  · dsimp only
    by_cases hdc : pyStrip c0.text = ""
    · rw [if_pos hdc]
    · rw [if_neg hdc]
      rcases hs : pySplit (pyStrip c0.text) with _ | ⟨d, _ | ⟨dy, r2⟩⟩
      · rfl
      · rfl
      · dsimp only
        exact tagFoldRel_keys _ d dy c1.tags acc

theorem rowsFoldRel_keys (target : Option String) (mn : String) (rows : List Row) :
    ∀ acc : List (String × List RFestival),
    (rows.foldl (rowFoldRel target mn) acc).map Prod.fst = acc.map Prod.fst := by
  induction rows with
  | nil => intro acc; rfl
  | cons r rows ih =>
    intro acc
    rw [List.foldl_cons, ih (rowFoldRel target mn acc r), rowFoldRel_keys]

theorem relTableStep_fst_keys (target : Option String) (t : Table)
    (acc : List (String × List RFestival)) :
    (relTableStep target t acc).1.map Prod.fst = acc.map Prod.fst := by
  unfold relTableStep
  cases hmn : monthName t with
  | none => rfl
  | some mn =>
    dsimp only
    split_ifs with hc
    · rfl
    · cases hb : t.body with
      | none => rfl
      | some rows => exact rowsFoldRel_keys target mn rows acc

theorem grfLoop_keys (target : Option String) (doc : List Table) :
    ∀ acc : List (String × List RFestival),
    (grfLoop target doc acc).map Prod.fst = acc.map Prod.fst := by
  induction doc with
  | nil => intro acc; rfl
  | cons t ts ih =>
    intro acc
    rw [grfLoop_cons]
    by_cases hbr : (relTableStep target t acc).2 = true
    · rw [if_pos hbr, relTableStep_fst_keys]
    · rw [if_neg hbr, ih, relTableStep_fst_keys]

/-- C8: for every document and every (year, month) input, the mapping
returned by get_religious_festivals has exactly the five pre-seeded
religion categories as keys, in order, each bound to a (possibly empty)
list — even when nothing in the document matches any color. -/
theorem claim_C8 (doc : List Table) (month : Option Int) :
    (get_religious_festivals doc month).map Prod.fst =
      ["Hindu Festivals", "Government Holidays", "Sikh Festivals",
       "Christian Holidays", "Islamic Holidays"] := by
  unfold get_religious_festivals
  rw [grfLoop_keys]
  rfl

/-! ## C9: malformed rows are skipped; empty months are omitted -/

theorem rowFestival_malformed (r : Row) (h : rowMalformed r) :
    rowFestival r = none := by
  rcases hc : r.cells with _ | ⟨c0, _ | ⟨c1, rest⟩⟩
  · unfold rowFestival; rw [hc]
  · unfold rowFestival; rw [hc]
  · unfold rowMalformed at h
    rw [hc] at h
    unfold rowFestival
    rw [hc]
    dsimp only at h ⊢
    rcases h with h | h | h
    · simp [h]
    · simp [h]
    · rcases hs : pySplit (pyStrip c0.text) with _ | ⟨d, _ | ⟨dy, r2⟩⟩
      · simp [hs]
      · simp [hs]
      · rw [hs] at h; simp at h; omega

theorem monthName_mk (hdr : Option String) (b1 b2 : Option (List Row)) :
    monthName ⟨hdr, b1⟩ = monthName ⟨hdr, b2⟩ := rfl

theorem tableStep_drop_malformed (target : Option String) (hdr : Option String)
    (rs1 rs2 : List Row) (r : Row) (hr : rowFestival r = none)
    (acc : List (String × List Festival)) :
    tableStep target ⟨hdr, some (rs1 ++ r :: rs2)⟩ acc =
      tableStep target ⟨hdr, some (rs1 ++ rs2)⟩ acc := by
  have hfm : (rs1 ++ r :: rs2).filterMap rowFestival =
      (rs1 ++ rs2).filterMap rowFestival := by
    simp [List.filterMap_append, List.filterMap_cons, hr]
  unfold tableStep
  rw [monthName_mk hdr (some (rs1 ++ r :: rs2)) (some (rs1 ++ rs2))]
  cases hmn : monthName (⟨hdr, some (rs1 ++ rs2)⟩ : Table) with
  | none => rfl
  | some mn =>
    dsimp only
    rw [hfm]

theorem gfLoop_drop_malformed (target : Option String) (hdr : Option String)
    (rs1 rs2 : List Row) (r : Row) (hr : rowFestival r = none) (post : List Table) :
    ∀ (pre : List Table) (acc : List (String × List Festival)),
    gfLoop target (pre ++ ⟨hdr, some (rs1 ++ r :: rs2)⟩ :: post) acc =
      gfLoop target (pre ++ ⟨hdr, some (rs1 ++ rs2)⟩ :: post) acc := by
  intro pre
  induction pre with
  | nil =>
    intro acc
    simp only [List.nil_append]
    rw [gfLoop_cons, gfLoop_cons, tableStep_drop_malformed target hdr rs1 rs2 r hr]
  | cons p pre ih =>
    intro acc
    simp only [List.cons_append]
    rw [gfLoop_cons, gfLoop_cons]
    by_cases hbr : (tableStep target p acc).2 = true
    · rw [if_pos hbr, if_pos hbr]
    · rw [if_neg hbr, if_neg hbr]
      exact ih _

theorem tableStep_fst_cases (target : Option String) (t : Table)
    (acc : List (String × List Festival)) :
    (tableStep target t acc).1 = acc ∨
    ∃ mn rows, monthName t = some mn ∧ t.body = some rows ∧
      ¬(rows.filterMap rowFestival).isEmpty = true ∧
      (tableStep target t acc).1 = odSet acc mn (rows.filterMap rowFestival) := by
  unfold tableStep
  cases hmn : monthName t with
  | none => exact Or.inl rfl
  | some mn =>
    dsimp only
    split_ifs with hc
    · exact Or.inl rfl
    · cases hb : t.body with
      | none => exact Or.inl rfl
      | some rows =>
        dsimp only
        by_cases hmf : (rows.filterMap rowFestival).isEmpty = true
        · rw [if_pos hmf]; exact Or.inl rfl
        · rw [if_neg hmf]
          exact Or.inr ⟨mn, rows, rfl, rfl, hmf, rfl⟩

theorem gf_nonempty_inv (target : Option String) (doc : List Table) :
    ∀ acc, (∀ (k : String) (l : List Festival), odGet acc k = some l → l ≠ []) →
    ∀ (k : String) (l : List Festival),
      odGet (gfLoop target doc acc) k = some l → l ≠ [] := by
  induction doc with
  | nil => intro acc hacc; exact hacc
  | cons t ts ih =>
    intro acc hacc
    have hacc' : ∀ (k : String) (l : List Festival),
        odGet (tableStep target t acc).1 k = some l → l ≠ [] := by
      rcases tableStep_fst_cases target t acc with h | ⟨mn, rows, hmn, hb, hmf, h⟩
      · rw [h]; exact hacc
      · rw [h]
        intro k l hget
        rw [odGet_odSet] at hget
        split_ifs at hget with hk
        · obtain rfl := Option.some.inj hget
          intro hn
          exact hmf (by simp [← hn])
        · exact hacc k l hget
    rw [gfLoop_cons]
    by_cases hbr : (tableStep target t acc).2 = true
    · rw [if_pos hbr]; exact hacc'
    · rw [if_neg hbr]; exact ih _ hacc'

/-- C9: (a) no key of the get_festivals result is bound to an empty list
(a month none of whose rows contributes is omitted, not mapped to []);
(b) deleting a malformed row — fewer than two cells, an empty trimmed
date or name cell, or a one-token date cell — from any table body leaves
the result unchanged, i.e. such a row contributes nothing (and extraction,
being a total function, never aborts). -/
theorem claim_C9 :
    (∀ (doc : List Table) (month : Option Int) (k : String) (l : List Festival),
      odGet (get_festivals doc month) k = some l → l ≠ []) ∧
    (∀ r : Row, rowMalformed r →
      ∀ (month : Option Int) (hdr : Option String) (rs1 rs2 : List Row)
        (pre post : List Table),
      get_festivals (pre ++ ⟨hdr, some (rs1 ++ r :: rs2)⟩ :: post) month =
        get_festivals (pre ++ ⟨hdr, some (rs1 ++ rs2)⟩ :: post) month) := by
  constructor
  · intro doc month k l h
    refine gf_nonempty_inv (targetMonthName month) doc [] ?_ k l h
    intro k l hget
    exact absurd hget (by simp [odGet])
  · intro r hmal month hdr rs1 rs2 pre post
    unfold get_festivals
    exact gfLoop_drop_malformed (targetMonthName month) hdr rs1 rs2 r
      (rowFestival_malformed r hmal) post pre []

/-- Witness for claim_C9: the March list of a concrete document is
non-empty, and dropping a concrete single-cell row changes nothing. -/
theorem claim_C9_witness :
    ([Festival.mk "1" "Saturday" "Holi"] : List Festival) ≠ [] ∧
    get_festivals [(⟨some "March 2025", some [Row.mk [Cell.mk "1 Mon" []]]⟩ : Table)]
        none =
      get_festivals [(⟨some "March 2025", some []⟩ : Table)] none :=
  ⟨claim_C9.1 docOneMarch none "March" [Festival.mk "1" "Saturday" "Holi"]
      (by decide),
   claim_C9.2 (Row.mk [Cell.mk "1 Mon" []]) trivial none (some "March 2025")
      [] [] [] []⟩

/-! ## C2: per-row classification of the religion view -/

theorem MONTHS_valid (m : Int) (h1 : 1 ≤ m) (h2 : m ≤ 12) :
    ∃ s, MONTHS m = some s := by
  interval_cases m <;> exact ⟨_, rfl⟩

theorem truthy_target (month : Option Int)
    (hv : ∀ x, month = some x → 1 ≤ x ∧ x ≤ 12) :
    truthyS (targetMonthName month) = month.isSome := by
  cases month with
  | none => rfl
  | some x =>
    obtain ⟨hx1, hx2⟩ := hv x rfl
    obtain ⟨s, hs⟩ := MONTHS_valid x hx1 hx2
    obtain ⟨-, hsne⟩ := MONTHS_shape x s hs
    simp [targetMonthName, show ¬x = 0 by omega, hs, truthyS, hsne]

theorem tagFold_odGet (mf : Option String) (d dy : String) (tags : List StyledTag) :
    ∀ (acc : List (String × List RFestival)) (c : String) (l : List RFestival),
    odGet acc c = some l →
    odGet (tags.foldl (fun a tg =>
      match tagRecord mf d dy tg with
      | none => a
      | some (rel, f) => odAppend a rel f) acc) c =
    some (l ++ (tags.filterMap (tagRecord mf d dy)).filterMap
      (fun p => if p.1 = c then some p.2 else none)) := by
  induction tags with
  | nil => intro acc c l h; simpa using h
  | cons tg tags ih =>
    intro acc c l h
    rcases htr : tagRecord mf d dy tg with _ | ⟨rel, f⟩
    · simp only [List.foldl_cons, List.filterMap_cons, htr]
      exact ih acc c l h
    · simp only [List.foldl_cons, List.filterMap_cons, htr]
      by_cases hrc : rel = c
      · subst hrc
        have h' : odGet (odAppend acc rel f) rel = some (l ++ [f]) := by
          rw [odGet_odAppend]
          simp [h]
        rw [ih _ _ _ h']
        simp
      · have h' : odGet (odAppend acc rel f) c = some l := by
          rw [odGet_odAppend, if_neg (fun he => hrc he.symm)]
          exact h
        rw [ih _ _ _ h']
        simp [hrc]

theorem rowFoldRel_odGet (target : Option String) (mn : String) (row : Row)
    (acc : List (String × List RFestival)) (c : String) (l : List RFestival)
    (h : odGet acc c = some l) :
    odGet (rowFoldRel target mn acc row) c =
      some (l ++ rowEmittedFor c (if truthyS target then none else some mn) row) := by
  unfold rowFoldRel rowEmittedFor rowEmitted
  rcases hc : row.cells with _ | ⟨c0, _ | ⟨c1, rest⟩⟩
  · simpa using h
  · simpa using h
  · dsimp only
    by_cases hdc : pyStrip c0.text = ""
    · rw [if_pos hdc, if_pos hdc]
      simpa using h
    · rw [if_neg hdc, if_neg hdc]
      rcases hs : pySplit (pyStrip c0.text) with _ | ⟨d, _ | ⟨dy, r2⟩⟩
      · simpa using h
      · simpa using h
      · dsimp only
        exact tagFold_odGet _ d dy c1.tags acc c l h

/-- C2: in get_religious_festivals' row processing, for every row with a
valid date cell (at least two whitespace tokens) and every styled element
of its name cell, the color parsed from the style declaration (the
field after the first colon, whitespace-stripped then semicolon-stripped)
is looked up in FESTIVAL_COLORS, and each hit appends to that category's
list exactly one record whose name is the element's trimmed text, whose
date and day are the date cell's first two tokens, and which carries the
table's month name precisely when no (valid) month filter was supplied:
the final list under each category is the prior list extended by the
row's emitted records in order. -/
theorem claim_C2 (month : Option Int)
    (hv : ∀ x, month = some x → 1 ≤ x ∧ x ≤ 12)
    (mn : String) (row : Row) (acc : List (String × List RFestival))
    (c : String) (l : List RFestival) (h : odGet acc c = some l) :
    odGet (rowFoldRel (targetMonthName month) mn acc row) c =
      some (l ++ rowEmittedFor c (if month.isSome then none else some mn) row) := by
  rw [rowFoldRel_odGet (targetMonthName month) mn row acc c l h,
    truthy_target month hv]

/-- Witness for claim_C2 on a concrete styled row. -/
theorem claim_C2_witness :
    odGet (rowFoldRel (targetMonthName (some 1)) "January" initialCategories
        tagRowEx) "Hindu Festivals" =
      some ([] ++ rowEmittedFor "Hindu Festivals"
        (if (some (1 : Int)).isSome then none else some "January") tagRowEx) :=
  claim_C2 (some 1)
    (fun x hx => by injection hx with hh; subst hh; exact ⟨by decide, by decide⟩)
    "January" tagRowEx initialCategories "Hindu Festivals" [] (by decide)

/-! ## C3 and C4: cache lookup and store -/

/-- C3: for every fingerprint (derived from the kwargs), CacheManager.get
returns the stored value when an entry is present and now is strictly
before its expiry; when a present entry has expired it reports a miss and
removes the entry; when no entry is present it reports a miss and leaves
the cache unchanged.  (States are well-formed dicts: keys are distinct.) -/
theorem claim_C3 {α : Type} (st : List (String × α × Int)) (now : Int)
    (kw : List (String × Jv)) :
    (∀ (v : α) (exp : Int), odGet st (generate_key kw) = some (v, exp) →
      now < exp → cache_get st now kw = (some v, st)) ∧
    (∀ (v : α) (exp : Int), odGet st (generate_key kw) = some (v, exp) →
      exp ≤ now → (st.map Prod.fst).Nodup →
      cache_get st now kw = (none, odDel st (generate_key kw)) ∧
      odGet (cache_get st now kw).2 (generate_key kw) = none) ∧
    (odGet st (generate_key kw) = none → cache_get st now kw = (none, st)) := by
  refine ⟨?_, ?_, ?_⟩
  · intro v exp hget hlt
    simp [cache_get, hget, hlt]
  · intro v exp hget hle hnd
    have hng : ¬now < exp := by omega
    constructor
    · simp [cache_get, hget, hng]
    · simp only [cache_get, hget]
      simp only [hng, if_false]
      exact odGet_odDel_self st _ hnd
  · intro hget
    simp [cache_get, hget]

/-- Witness for claim_C3: a stored entry is returned while fresh and
evicted once expired. -/
theorem claim_C3_witness :
    cache_get [(generate_key (festivalsKwargs 2025 none), ((7 : Nat), (50 : Int)))]
        10 (festivalsKwargs 2025 none) =
      (some 7, [(generate_key (festivalsKwargs 2025 none), ((7 : Nat), (50 : Int)))]) ∧
    odGet (cache_get [(generate_key (festivalsKwargs 2025 none),
        ((7 : Nat), (50 : Int)))] 99 (festivalsKwargs 2025 none)).2
      (generate_key (festivalsKwargs 2025 none)) = none :=
  ⟨(claim_C3 [(generate_key (festivalsKwargs 2025 none), ((7 : Nat), (50 : Int)))]
      10 (festivalsKwargs 2025 none)).1 7 50 (by decide) (by decide),
   ((claim_C3 [(generate_key (festivalsKwargs 2025 none), ((7 : Nat), (50 : Int)))]
      99 (festivalsKwargs 2025 none)).2.1 7 50 (by decide) (by decide)
      (by decide)).2⟩

/-- C4 counterexample: with ttl = 0 the code stores now + default_ttl, not
now + ttl — Python's (ttl or default) treats 0 as absent.  With default
3600, now 0 and ttl 0, the stored expiry is 3600 while the claim demands
0 + 0. -/
theorem claim_C4_counterexample :
    odGet (cache_set 3600 ([] : List (String × Nat × Int)) 0 42 (some 0)
        (festivalsKwargs 2025 none)) (generate_key (festivalsKwargs 2025 none)) =
      some (42, 3600) ∧ (3600 : Int) ≠ 0 + 0 := by decide

/-- C4 (amended): for every fingerprint, value and nonzero ttl,
CacheManager.set stores (value, now + ttl) under that fingerprint,
overwriting any prior entry, and leaves every other fingerprint
unchanged; a ttl of None or 0 falls back to the default TTL instead. -/
theorem claim_C4 {α : Type} (default_ttl : Int) (st : List (String × α × Int))
    (now : Int) (v : α) (t : Int) (ht : t ≠ 0) (kw : List (String × Jv)) :
    odGet (cache_set default_ttl st now v (some t) kw) (generate_key kw) =
      some (v, now + t) ∧
    (∀ k', k' ≠ generate_key kw →
      odGet (cache_set default_ttl st now v (some t) kw) k' = odGet st k') ∧
    (∀ t0 : Option Int, t0 = none ∨ t0 = some 0 →
      odGet (cache_set default_ttl st now v t0 kw) (generate_key kw) =
        some (v, now + default_ttl)) := by
  refine ⟨?_, ?_, ?_⟩
  · unfold cache_set
    rw [odGet_odSet, if_pos rfl]
    simp [pyOrInt, ht]
  · intro k' hk
    unfold cache_set
    rw [odGet_odSet, if_neg hk]
  · rintro t0 (rfl | rfl) <;>
      (unfold cache_set; rw [odGet_odSet, if_pos rfl]; simp [pyOrInt])

/-- Witness for claim_C4 with ttl 5 over a prior entry. -/
theorem claim_C4_witness :
    odGet (cache_set 3600
        [(generate_key (festivalsKwargs 2025 none), ((9 : Nat), (1 : Int)))]
        0 42 (some 5) (festivalsKwargs 2025 none))
      (generate_key (festivalsKwargs 2025 none)) = some (42, 0 + 5) ∧
    odGet (cache_set 3600
        [(generate_key (festivalsKwargs 2025 none), ((9 : Nat), (1 : Int)))]
        0 42 (some 5) (festivalsKwargs 2025 none)) "other" =
      odGet [(generate_key (festivalsKwargs 2025 none), ((9 : Nat), (1 : Int)))]
        "other" :=
  ⟨(claim_C4 3600 [(generate_key (festivalsKwargs 2025 none), ((9 : Nat), (1 : Int)))]
      0 42 5 (by decide) (festivalsKwargs 2025 none)).1,
   (claim_C4 3600 [(generate_key (festivalsKwargs 2025 none), ((9 : Nat), (1 : Int)))]
      0 42 5 (by decide) (festivalsKwargs 2025 none)).2.1 "other" (by decide)⟩

/-! ## C5: decimal rendering facts (Nat.repr computes specDigits) -/

theorem toDigitsCore_eq (fuel : Nat) :
    ∀ (n : Nat) (ds : List Char), n < fuel →
    Nat.toDigitsCore 10 fuel n ds = specDigits n ++ ds := by
  induction fuel with
  | zero => intro n ds h; omega
  | succ fuel ih =>
    intro n ds h
    rw [Nat.toDigitsCore]
    by_cases h10 : n / 10 = 0
    · have hn : n < 10 := (Nat.div_eq_zero_iff (by omega)).mp h10
      rw [if_pos h10, specDigits, if_pos hn, Nat.mod_eq_of_lt hn]
      rfl
    · have hn : ¬n < 10 := by
        intro hlt
        exact h10 ((Nat.div_eq_zero_iff (by omega)).mpr hlt)
      have hpos : 0 < n := by omega
      have hlt : n / 10 < n := Nat.div_lt_self hpos (by omega)
      rw [if_neg h10, ih (n / 10) (Nat.digitChar (n % 10) :: ds) (by omega)]
      conv_rhs => rw [specDigits]
      rw [if_neg hn]
      simp [List.append_assoc]

theorem Nat_repr_data (n : Nat) : (Nat.repr n).data = specDigits n := by
  unfold Nat.repr Nat.toDigits
  rw [toDigitsCore_eq (n + 1) n [] (by omega)]
  simp [List.asString]

theorem digitChar_toNat (d : Nat) (h : d < 10) :
    (Nat.digitChar d).toNat = 48 + d := by
  interval_cases d <;> decide

theorem digitChar_ne_dash (d : Nat) (h : d < 10) : Nat.digitChar d ≠ '-' := by
  interval_cases d <;> decide

theorem digitChar_ne_n (d : Nat) (h : d < 10) : Nat.digitChar d ≠ 'n' := by
  interval_cases d <;> decide

theorem digitsVal_append_singleton (l : List Char) (c : Char) :
    digitsVal (l ++ [c]) = 10 * digitsVal l + (c.toNat - 48) := by
  unfold digitsVal
  rw [List.foldl_append]
  rfl

theorem digitsVal_specDigits (n : Nat) : digitsVal (specDigits n) = n := by
  induction n using Nat.strong_induction_on with
  | _ n ih =>
    by_cases h : n < 10
    · rw [specDigits, if_pos h]
      unfold digitsVal
      simp only [List.foldl_cons, List.foldl_nil]
      rw [digitChar_toNat n h]
      omega
    · rw [specDigits, if_neg h, digitsVal_append_singleton,
        ih (n / 10) (Nat.div_lt_self (by omega) (by omega)),
        digitChar_toNat (n % 10) (Nat.mod_lt _ (by omega))]
      omega

theorem specDigits_head (n : Nat) :
    ∃ d, d < 10 ∧ (specDigits n).head? = some (Nat.digitChar d) := by
  induction n using Nat.strong_induction_on with
  | _ n ih =>
    by_cases h : n < 10
    · refine ⟨n, h, ?_⟩
      rw [specDigits, if_pos h]
      rfl
    · obtain ⟨d, hd, hh⟩ := ih (n / 10) (Nat.div_lt_self (by omega) (by omega))
      refine ⟨d, hd, ?_⟩
      rw [specDigits, if_neg h, List.head?_append, hh]
      rfl

theorem string_data_inj {a b : String} (h : a.data = b.data) : a = b := by
  cases a
  cases b
  cases h
  rfl

theorem Nat_repr_inj {m n : Nat} (h : Nat.repr m = Nat.repr n) : m = n := by
  have hd := congrArg String.data h
  rw [Nat_repr_data, Nat_repr_data] at hd
  have hv := congrArg digitsVal hd
  rwa [digitsVal_specDigits, digitsVal_specDigits] at hv

theorem jsonInt_data_ofNat (m : Nat) :
    (jsonInt (Int.ofNat m)).data = specDigits m := Nat_repr_data m

theorem jsonInt_data_negSucc (m : Nat) :
    (jsonInt (Int.negSucc m)).data = '-' :: specDigits (m + 1) := by
  show ("-" ++ Nat.repr (m + 1)).data = _
  rw [String.data_append, Nat_repr_data]
  rfl

theorem jsonInt_inj {i j : Int} (h : jsonInt i = jsonInt j) : i = j := by
  have hd := congrArg String.data h
  cases i with
  | ofNat m =>
    cases j with
    | ofNat n =>
      rw [jsonInt_data_ofNat, jsonInt_data_ofNat] at hd
      have hv := congrArg digitsVal hd
      rw [digitsVal_specDigits, digitsVal_specDigits] at hv
      exact congrArg Int.ofNat hv
    | negSucc n =>
      rw [jsonInt_data_ofNat, jsonInt_data_negSucc] at hd
      obtain ⟨d, hd10, hh⟩ := specDigits_head m
      have hhd := congrArg List.head? hd
      rw [hh] at hhd
      simp only [List.head?_cons, Option.some.injEq] at hhd
      exact absurd hhd (digitChar_ne_dash d hd10)
  | negSucc m =>
    cases j with
    | ofNat n =>
      rw [jsonInt_data_negSucc, jsonInt_data_ofNat] at hd
      obtain ⟨d, hd10, hh⟩ := specDigits_head n
      have hhd := congrArg List.head? hd.symm
      rw [hh] at hhd
      simp only [List.head?_cons, Option.some.injEq] at hhd
      exact absurd hhd (digitChar_ne_dash d hd10)
    | negSucc n =>
      rw [jsonInt_data_negSucc, jsonInt_data_negSucc] at hd
      simp only [List.cons.injEq, true_and] at hd
      have hv := congrArg digitsVal hd
      rw [digitsVal_specDigits, digitsVal_specDigits] at hv
      have : m = n := by omega
      exact congrArg Int.negSucc this

theorem jsonInt_ne_null (i : Int) : jsonInt i ≠ "null" := by
  intro h
  have hd := congrArg String.data h
  cases i with
  | ofNat m =>
    rw [jsonInt_data_ofNat] at hd
    obtain ⟨d, hd10, hh⟩ := specDigits_head m
    have hhd := congrArg List.head? hd
    rw [hh, show (("null" : String).data).head? = some 'n' from rfl] at hhd
    simp only [Option.some.injEq] at hhd
    exact absurd hhd (digitChar_ne_n d hd10)
  | negSucc m =>
    rw [jsonInt_data_negSucc] at hd
    have hhd := congrArg List.head? hd
    rw [show (("null" : String).data).head? = some 'n' from rfl] at hhd
    simp only [List.head?_cons, Option.some.injEq] at hhd
    exact absurd hhd (by decide)

theorem jvMonth_inj {mo mo' : Option Int}
    (h : dumpJv (jvMonth mo) = dumpJv (jvMonth mo')) : mo = mo' := by
  cases mo with
  | none =>
    cases mo' with
    | none => rfl
    | some x => exact absurd (h.symm : jsonInt x = "null") (jsonInt_ne_null x)
  | some x =>
    cases mo' with
    | none => exact absurd (h : jsonInt x = "null") (jsonInt_ne_null x)
    | some y => exact congrArg some (jsonInt_inj (h : jsonInt x = jsonInt y))

theorem genKey_eq (kind : String) (year : Int) (mo : Option Int) :
    generate_key [("type", Jv.s kind), ("year", Jv.n year), ("month", jvMonth mo)] =
      "\x7b" ++ ("\"" ++ "month" ++ "\": " ++ dumpJv (jvMonth mo) ++ ", " ++
        ("\"" ++ "type" ++ "\": " ++ ("\"" ++ kind ++ "\"") ++ ", " ++
          ("\"" ++ "year" ++ "\": " ++ jsonInt year))) ++ "\x7d" := rfl

theorem genKey_inj_kind (k k' : String) (y : Int) (mo : Option Int)
    (h : generate_key [("type", Jv.s k), ("year", Jv.n y), ("month", jvMonth mo)] =
      generate_key [("type", Jv.s k'), ("year", Jv.n y), ("month", jvMonth mo)]) :
    k = k' := by
  have hd := congrArg String.data h
  rw [genKey_eq, genKey_eq] at hd
  simp only [String.data_append, List.append_assoc, List.append_cancel_left_eq,
    List.append_cancel_right_eq] at hd
  exact string_data_inj hd

theorem genKey_inj_year (k : String) (y y' : Int) (mo : Option Int)
    (h : generate_key [("type", Jv.s k), ("year", Jv.n y), ("month", jvMonth mo)] =
      generate_key [("type", Jv.s k), ("year", Jv.n y'), ("month", jvMonth mo)]) :
    y = y' := by
  have hd := congrArg String.data h
  rw [genKey_eq, genKey_eq] at hd
  simp only [String.data_append, List.append_assoc, List.append_cancel_left_eq,
    List.append_cancel_right_eq] at hd
  exact jsonInt_inj (string_data_inj hd)

theorem genKey_inj_month (k : String) (y : Int) (mo mo' : Option Int)
    (h : generate_key [("type", Jv.s k), ("year", Jv.n y), ("month", jvMonth mo)] =
      generate_key [("type", Jv.s k), ("year", Jv.n y), ("month", jvMonth mo')]) :
    mo = mo' := by
  have hd := congrArg String.data h
  rw [genKey_eq, genKey_eq] at hd
  simp only [String.data_append, List.append_assoc, List.append_cancel_left_eq,
    List.append_cancel_right_eq] at hd
  exact jvMonth_inj (string_data_inj hd)

/-- C5: the cache fingerprint is deterministic and order-independent — the
same (kind, year, month) fields give the same key in whatever order the
keyword arguments are supplied (sort_keys canonicalizes) — and changing
any one of kind, year or month changes the fingerprint.  (The md5 applied
on top of the canonical serialization is modelled as the serialization
itself.) -/
theorem claim_C5 :
    (∀ (kind : String) (year : Int) (mo : Option Int),
      generate_key [("type", Jv.s kind), ("year", Jv.n year), ("month", jvMonth mo)] =
        generate_key [("type", Jv.s kind), ("month", jvMonth mo), ("year", Jv.n year)] ∧
      generate_key [("type", Jv.s kind), ("year", Jv.n year), ("month", jvMonth mo)] =
        generate_key [("year", Jv.n year), ("type", Jv.s kind), ("month", jvMonth mo)] ∧
      generate_key [("type", Jv.s kind), ("year", Jv.n year), ("month", jvMonth mo)] =
        generate_key [("year", Jv.n year), ("month", jvMonth mo), ("type", Jv.s kind)] ∧
      generate_key [("type", Jv.s kind), ("year", Jv.n year), ("month", jvMonth mo)] =
        generate_key [("month", jvMonth mo), ("type", Jv.s kind), ("year", Jv.n year)] ∧
      generate_key [("type", Jv.s kind), ("year", Jv.n year), ("month", jvMonth mo)] =
        generate_key [("month", jvMonth mo), ("year", Jv.n year), ("type", Jv.s kind)]) ∧
    (∀ (k k' : String) (y : Int) (mo : Option Int), k ≠ k' →
      generate_key [("type", Jv.s k), ("year", Jv.n y), ("month", jvMonth mo)] ≠
        generate_key [("type", Jv.s k'), ("year", Jv.n y), ("month", jvMonth mo)]) ∧
    (∀ (k : String) (y y' : Int) (mo : Option Int), y ≠ y' →
      generate_key [("type", Jv.s k), ("year", Jv.n y), ("month", jvMonth mo)] ≠
        generate_key [("type", Jv.s k), ("year", Jv.n y'), ("month", jvMonth mo)]) ∧
    (∀ (k : String) (y : Int) (mo mo' : Option Int), mo ≠ mo' →
      generate_key [("type", Jv.s k), ("year", Jv.n y), ("month", jvMonth mo)] ≠
        generate_key [("type", Jv.s k), ("year", Jv.n y), ("month", jvMonth mo')]) := by
  refine ⟨fun kind year mo => ⟨rfl, rfl, rfl, rfl, rfl⟩, ?_, ?_, ?_⟩
  · intro k k' y mo hne h
    exact hne (genKey_inj_kind k k' y mo h)
  · intro k y y' mo hne h
    exact hne (genKey_inj_year k y y' mo h)
  · intro k y mo mo' hne h
    exact hne (genKey_inj_month k y mo mo' h)

/-- Witness for claim_C5: the festivals and religious fingerprints of an
otherwise identical request differ. -/
theorem claim_C5_witness :
    generate_key [("type", Jv.s "festivals"), ("year", Jv.n 2025),
        ("month", jvMonth none)] ≠
      generate_key [("type", Jv.s "religious"), ("year", Jv.n 2025),
        ("month", jvMonth none)] :=
  claim_C5.2.1 "festivals" "religious" 2025 none (by decide)

/-! ## C6: failures propagate unmodified and are never cached -/

theorem cache_get_of_odGet_none {α : Type} (st : List (String × α × Int))
    (now : Int) (kw : List (String × Jv))
    (h : odGet st (generate_key kw) = none) :
    cache_get st now kw = (none, st) := by
  simp [cache_get, h]

theorem cache_get_miss_state {α : Type} (st : List (String × α × Int))
    (now : Int) (kw : List (String × Jv))
    (hnd : (st.map Prod.fst).Nodup)
    (hmiss : (cache_get st now kw).1 = none) :
    odGet (cache_get st now kw).2 (generate_key kw) = none ∧
    (∀ k', k' ≠ generate_key kw →
      odGet (cache_get st now kw).2 k' = odGet st k') := by
  unfold cache_get at hmiss ⊢
  cases hg : odGet st (generate_key kw) with
  | none => simp [hg]
  | some ve =>
    simp only [hg] at hmiss ⊢
    by_cases hlt : now < ve.2
    · rw [if_pos hlt] at hmiss
      simp at hmiss
    · rw [if_neg hlt]
      exact ⟨odGet_odDel_self st _ hnd,
        fun k' hk => odGet_odDel_other st _ k' hk⟩

/-- C6: when the fetch fails on a (year, month) request that is not served
from cache, both service entry points re-raise the same failure unchanged,
store nothing under the request's fingerprint (and touch no other entry),
and a subsequent identical call performs the full fetch again (observing
the same failure while the upstream still fails). -/
theorem service_fest_err_of_miss (world : Int → Except FetchErr (List Table))
    (cacheTtl defaultTtl : Int) (st' : List (String × CacheVal × Int))
    (now' : Int) (year : Int) (month : Option Int) (e : FetchErr)
    (hm : odGet st' (generate_key (festivalsKwargs year month)) = none)
    (hfail : world year = Except.error e) :
    (service_get_festivals world cacheTtl defaultTtl st' now' year month).1 =
      Except.error e := by
  have hmiss2 : cache_get st' now' (festivalsKwargs year month) = (none, st') :=
    cache_get_of_odGet_none st' now' (festivalsKwargs year month) hm
  unfold service_get_festivals
  rw [hmiss2, hfail]

theorem service_rel_err_of_miss (world : Int → Except FetchErr (List Table))
    (cacheTtl defaultTtl : Int) (st' : List (String × CacheVal × Int))
    (now' : Int) (year : Int) (month : Option Int) (e : FetchErr)
    (hm : odGet st' (generate_key (religiousKwargs year month)) = none)
    (hfail : world year = Except.error e) :
    (service_get_religious_festivals world cacheTtl defaultTtl st' now' year
      month).1 = Except.error e := by
  have hmiss2 : cache_get st' now' (religiousKwargs year month) = (none, st') :=
    cache_get_of_odGet_none st' now' (religiousKwargs year month) hm
  unfold service_get_religious_festivals
  rw [hmiss2, hfail]

theorem claim_C6 (world : Int → Except FetchErr (List Table))
    (cacheTtl defaultTtl : Int) (st : List (String × CacheVal × Int))
    (now : Int) (year : Int) (month : Option Int) (e : FetchErr)
    (hnd : (st.map Prod.fst).Nodup)
    (hfail : world year = Except.error e) :
    ((cache_get st now (festivalsKwargs year month)).1 = none →
      (service_get_festivals world cacheTtl defaultTtl st now year month).1 =
        Except.error e ∧
      odGet (service_get_festivals world cacheTtl defaultTtl st now year month).2
        (generate_key (festivalsKwargs year month)) = none ∧
      (∀ k', k' ≠ generate_key (festivalsKwargs year month) →
        odGet (service_get_festivals world cacheTtl defaultTtl st now year
          month).2 k' = odGet st k') ∧
      (∀ now', (service_get_festivals world cacheTtl defaultTtl
        (service_get_festivals world cacheTtl defaultTtl st now year month).2
        now' year month).1 = Except.error e)) ∧
    ((cache_get st now (religiousKwargs year month)).1 = none →
      (service_get_religious_festivals world cacheTtl defaultTtl st now year
        month).1 = Except.error e ∧
      odGet (service_get_religious_festivals world cacheTtl defaultTtl st now
        year month).2 (generate_key (religiousKwargs year month)) = none ∧
      (∀ k', k' ≠ generate_key (religiousKwargs year month) →
        odGet (service_get_religious_festivals world cacheTtl defaultTtl st now
          year month).2 k' = odGet st k') ∧
      (∀ now', (service_get_religious_festivals world cacheTtl defaultTtl
        (service_get_religious_festivals world cacheTtl defaultTtl st now year
          month).2 now' year month).1 = Except.error e)) := by
  constructor
  · intro hmiss
    have hpair : cache_get st now (festivalsKwargs year month) =
        (none, (cache_get st now (festivalsKwargs year month)).2) :=
      Prod.ext hmiss rfl
    obtain ⟨hkey, hother⟩ :=
      cache_get_miss_state st now (festivalsKwargs year month) hnd hmiss
    have hsvc : service_get_festivals world cacheTtl defaultTtl st now year month =
        (Except.error e, (cache_get st now (festivalsKwargs year month)).2) := by
      unfold service_get_festivals
      rw [hpair, hfail]
    have hkey2 : odGet
        (service_get_festivals world cacheTtl defaultTtl st now year month).2
        (generate_key (festivalsKwargs year month)) = none := by
      rw [hsvc]
      exact hkey
    exact ⟨by rw [hsvc], hkey2,
      fun k' hk => by rw [hsvc]; exact hother k' hk,
      fun now' => service_fest_err_of_miss world cacheTtl defaultTtl _ now' year
        month e hkey2 hfail⟩
  · intro hmiss
    have hpair : cache_get st now (religiousKwargs year month) =
        (none, (cache_get st now (religiousKwargs year month)).2) :=
      Prod.ext hmiss rfl
    obtain ⟨hkey, hother⟩ :=
      cache_get_miss_state st now (religiousKwargs year month) hnd hmiss
    have hsvc : service_get_religious_festivals world cacheTtl defaultTtl st now
        year month =
        (Except.error e, (cache_get st now (religiousKwargs year month)).2) := by
      unfold service_get_religious_festivals
      rw [hpair, hfail]
    have hkey2 : odGet
        (service_get_religious_festivals world cacheTtl defaultTtl st now year
          month).2 (generate_key (religiousKwargs year month)) = none := by
      rw [hsvc]
      exact hkey
    exact ⟨by rw [hsvc], hkey2,
      fun k' hk => by rw [hsvc]; exact hother k' hk,
      fun now' => service_rel_err_of_miss world cacheTtl defaultTtl _ now' year
        month e hkey2 hfail⟩

/-- Witness for claim_C6 with an always-failing upstream and empty cache. -/
theorem claim_C6_witness :
    (service_get_festivals (fun _ => Except.error ⟨"boom"⟩) 60 3600 [] 0 2025
      none).1 = Except.error ⟨"boom"⟩ ∧
    (service_get_religious_festivals (fun _ => Except.error ⟨"boom"⟩) 60 3600 []
      0 2025 none).1 = Except.error ⟨"boom"⟩ :=
  ⟨((claim_C6 (fun _ => Except.error ⟨"boom"⟩) 60 3600 [] 0 2025 none ⟨"boom"⟩
      (by simp) rfl).1 (by decide)).1,
   ((claim_C6 (fun _ => Except.error ⟨"boom"⟩) 60 3600 [] 0 2025 none ⟨"boom"⟩
      (by simp) rfl).2 (by decide)).1⟩

end PanchangModel
